import Mathlib

/-!
# Verification of the `stp` tokenizer (src/lib.rs)

A shallow embedding of the tokenizer in `src/src/lib.rs`.  The input text
is split into a grid of lines of characters; a cursor `(ln, col)` walks the
grid.  Rust `String` values are modelled as `List Char`; the byte length of
a Rust `String` (`String::len`) is modelled by summing `Char.utf8Size`.
Loops of the Rust source are modelled with an explicit fuel parameter;
`Tokenizer.tokenize` supplies a fuel computed from the input size, and the
termination theorem proves this fuel always suffices.
-/

namespace Stp

/-- `NumberType` from src/lib.rs. -/
inductive NumberType where
  | Float | Hex | Binary | Octal | Seq
  deriving DecidableEq, Repr

/-- `TokenType` from src/lib.rs. -/
inductive TokenType where
  | Word
  | Number (t : NumberType)
  | String
  | Char
  | Symbol
  | Operator
  deriving DecidableEq, Repr

/-- `Loc` from src/lib.rs: a zero-based (line, column) pair. -/
structure Loc where
  line : Nat
  colm : Nat
  deriving DecidableEq, Repr

/-- `Token` from src/lib.rs; the Rust `String` value is a list of chars. -/
structure Token where
  type : TokenType
  value : List Char
  loc : Loc
  deriving DecidableEq, Repr

/-- `TokenizationError` from src/error.rs. -/
inductive TokenizationError where
  | NotAValidChar (loc : Loc)
  | UnexpectedDigitSeparator (loc : Loc)
  deriving DecidableEq, Repr

/-- `Choice<T>` from src/lib.rs. -/
inductive Choice (α : Type) where
  | Yes (v : α)
  | No
  deriving DecidableEq, Repr

/-- `TokenizerConfig` from src/lib.rs. -/
structure TokenizerConfig where
  parse_char_as_string : Bool := false
  ignore_numbers : Bool := false
  allow_digit_separator : Choice Char := .No
  consider_as_symbols : List Char := []
  consider_as_operators : List Char := []
  deriving Repr

/-- The configuration produced by `TokenizerBuilder::new()`:
defaults with `consider_as_symbols = ['.']`. -/
def builderNewConfig : TokenizerConfig :=
  { consider_as_symbols := ['.'] }

/-- The mutable tokenizer state from src/lib.rs (`lines`, `ln`, `col`,
`config`). -/
structure Tokenizer where
  lines : List (List Char)
  ln : Nat
  col : Nat
  config : TokenizerConfig

/-- The `OutOfBound` classification from src/lib.rs. -/
inductive OutOfBound where
  | Empty | Out | Within
  deriving DecidableEq, Repr

/-- The line at index `i` of the grid (the Rust code only indexes in
bounds; out of bounds we default to the empty line). -/
def lineAt (t : Tokenizer) (i : Nat) : List Char := t.lines.getD i []

/-- `Tokenizer::is_out_of_bound`. -/
def Tokenizer.is_out_of_bound (t : Tokenizer) : OutOfBound :=
  if t.lines.length ≤ t.ln then .Out
  else if (lineAt t t.ln).length ≠ 0 then
    if (lineAt t t.ln).length ≤ t.col then .Out else .Within
  else .Empty

/-- `Tokenizer::is_out_of_bound_for(ln, col)`.  NOTE: the source's inner
column check reads `self.lines[self.ln].len()` — the length of the line the
*cursor* is on, not the length of line `ln`; the embedding reproduces
that. -/
def Tokenizer.is_out_of_bound_for (t : Tokenizer) (ln col : Nat) : OutOfBound :=
  if t.lines.length ≤ ln then .Out
  else if (lineAt t ln).length ≠ 0 then
    if (lineAt t t.ln).length ≤ col then .Out else .Within
  else .Empty

/-- `Tokenizer::next_line`. -/
def Tokenizer.next_line (t : Tokenizer) : Tokenizer :=
  { t with ln := t.ln + 1, col := 0 }

/-- `Tokenizer::consume(len)`: the Rust `while len > 0` loop.  When the
cursor line is past the grid (`ln + 1 > ln_max`) and the state is `Out`,
the source logs a warning and `break`s out of the whole loop. -/
def Tokenizer.consume : Tokenizer → Nat → Tokenizer
  | t, 0 => t
  | t, len + 1 =>
    if t.lines.length < t.ln + 1 then
      if t.is_out_of_bound = .Out then t
      else Tokenizer.consume { t with ln := t.ln + 1 } len
    else
      let col_max := (lineAt t t.ln).length
      if col_max ≤ t.col + 1 then Tokenizer.consume t.next_line len
      else Tokenizer.consume { t with col := t.col + 1 } len

/-- One step of `Tokenizer::fake_consume`'s loop on a hypothetical
`(ln, col)` pair. -/
def fakeStep (t : Tokenizer) : Nat × Nat → Nat × Nat
  | (ln, col) =>
    if t.lines.length < ln + 1 then (ln + 1, col)
    else
      let col_max := (lineAt t ln).length
      if col_max ≤ col + 1 then (ln + 1, 0)
      else (ln, col + 1)

/-- The loop of `Tokenizer::fake_consume`. -/
def fakeSteps (t : Tokenizer) : Nat → Nat × Nat → Nat × Nat
  | 0, p => p
  | len + 1, p => fakeSteps t len (fakeStep t p)

/-- `Tokenizer::fake_consume(len)`. -/
def Tokenizer.fake_consume (t : Tokenizer) (len : Nat) : OutOfBound × Loc :=
  let p := fakeSteps t len (t.ln, t.col)
  (t.is_out_of_bound_for p.1 p.2, ⟨p.1, p.2⟩)

/-- `Tokenizer::get_next_char`. -/
def Tokenizer.get_next_char (t : Tokenizer) : Option Char :=
  if t.is_out_of_bound = .Within then some ((lineAt t t.ln).getD t.col ' ')
  else none

/-- `Tokenizer::peek_tok`. -/
def Tokenizer.peek_tok (t : Tokenizer) : Option Char :=
  match t.fake_consume 1 with
  | (.Empty, _) => some '\n'
  | (.Out, _) => none
  | (.Within, loc) => some ((t.lines.getD loc.line []).getD loc.colm ' ')

/-- The byte length of a Rust `String` holding these characters
(`String::len` counts UTF-8 bytes, not characters). -/
def utf8Len (s : List Char) : Nat := (s.map Char.utf8Size).sum

/-- Result of a sub-scanner: `none` models fuel exhaustion (never reached,
by the termination theorem), otherwise the Rust `Result<Token, _>` together
with the updated scanner state. -/
abbrev ScanResult := Option (Except TokenizationError (Token × Tokenizer))

/-- The loop of `Tokenizer::parse_word`: push the character unless it is a
space, a symbol or an operator, then advance. -/
def parse_wordLoop : Nat → Tokenizer → List Char → Option (List Char × Tokenizer)
  | 0, _, _ => none
  | fuel + 1, t, word =>
    match t.get_next_char with
    | none => some (word, t)
    | some c =>
      if c ≠ ' ' then
        if ¬ t.config.consider_as_symbols.contains c
            ∧ ¬ t.config.consider_as_operators.contains c then
          parse_wordLoop fuel (t.consume 1) (word ++ [c])
        else some (word, t)
      else some (word, t)

/-- `Tokenizer::parse_word`. -/
def Tokenizer.parse_word (t : Tokenizer) (fuel : Nat) : ScanResult :=
  let start_ln := t.ln
  let start_col := t.col
  match parse_wordLoop fuel t [] with
  | none => none
  | some (word, t') =>
    some (.ok (⟨.Word, word, ⟨start_ln, start_col⟩⟩, t'))

/-- The accumulation loop of `Tokenizer::parse_float`. -/
def parse_floatLoop : Nat → Tokenizer → List Char → Bool → Option (List Char × Tokenizer)
  | 0, _, _, _ => none
  | fuel + 1, t, float, encountered_dot =>
    match t.get_next_char with
    | none => some (float, t)
    | some c =>
      if c.isDigit then
        parse_floatLoop fuel (t.consume 1) (float ++ [c]) encountered_dot
      else if c = '.' then
        if encountered_dot then some (float, t)
        else parse_floatLoop fuel (t.consume 1) (float ++ ['.']) true
      else some (float, t)

/-- `Tokenizer::parse_float`: when the first character is `.`, the text
starts as `"0."` and the dot is consumed. -/
def Tokenizer.parse_float (t : Tokenizer) (fuel : Nat) : ScanResult :=
  let start_ln := t.ln
  let start_col := t.col
  let st :=
    if t.get_next_char.getD ' ' = '.' then (t.consume 1, (['0', '.'] : List Char), true)
    else (t, [], false)
  match parse_floatLoop fuel st.1 st.2.1 st.2.2 with
  | none => none
  | some (float, t') =>
    some (.ok (⟨.Number .Float, float, ⟨start_ln, start_col⟩⟩, t'))

/-- The loop of `Tokenizer::parse_number`, carrying the accumulated text,
the number type, the `parsing_float` flag and `inner_col`. -/
def parse_numberLoop (start_ln : Nat) :
    Nat → Tokenizer → List Char → NumberType → Bool → Nat →
    Option (Except TokenizationError (List Char × NumberType × Tokenizer))
  | 0, _, _, _, _, _ => none
  | fuel + 1, t, num, num_type, parsing_float, inner_col =>
    match t.get_next_char with
    | none => some (.ok (num, num_type, t))
    | some c =>
      if c.isDigit then
        parse_numberLoop start_ln fuel (t.consume 1) (num ++ [c]) num_type
          parsing_float (inner_col + 1)
      else if c = '.' then
        if parsing_float then some (.ok (num, num_type, t))
        else
          parse_numberLoop start_ln fuel (t.consume 1) (num ++ ['.']) .Float
            true (inner_col + 1)
      else
        match t.config.allow_digit_separator with
        | .Yes w =>
          if c = w then
            let t1 := t.consume 1
            match t1.get_next_char with
            | some next_char =>
              if ¬ next_char.isDigit then
                some (.error (.UnexpectedDigitSeparator ⟨start_ln, inner_col⟩))
              else
                parse_numberLoop start_ln fuel (t1.consume 1) (num ++ [next_char])
                  num_type parsing_float (inner_col + 1)
            | none =>
              some (.error (.UnexpectedDigitSeparator ⟨start_ln, inner_col⟩))
          else some (.ok (num, num_type, t))
        | .No => some (.ok (num, num_type, t))

/-- `Tokenizer::parse_number`. -/
def Tokenizer.parse_number (t : Tokenizer) (fuel : Nat) : ScanResult :=
  let start_ln := t.ln
  let start_col := t.col
  match parse_numberLoop start_ln fuel t [] .Seq false t.col with
  | none => none
  | some (.error e) => some (.error e)
  | some (.ok (num, num_type, t')) =>
    some (.ok (⟨.Number num_type, num, ⟨start_ln, start_col⟩⟩, t'))

/-- The shared accumulation loop of `parse_binary` / `parse_hex` /
`parse_octal`: accumulate characters of the given digit alphabet. -/
def parse_radixLoop (alphabet : Char → Bool) :
    Nat → Tokenizer → List Char → Option (List Char × Tokenizer)
  | 0, _, _ => none
  | fuel + 1, t, num =>
    match t.get_next_char with
    | none => some (num, t)
    | some c =>
      if alphabet c then parse_radixLoop alphabet fuel (t.consume 1) (num ++ [c])
      else some (num, t)

/-- Rust `char::is_ascii_hexdigit`. -/
def isAsciiHexDigit (c : Char) : Bool :=
  c.isDigit || ('a' ≤ c && c ≤ 'f') || ('A' ≤ c && c ≤ 'F')

/-- `Tokenizer::parse_binary`: consume the two-character prefix, then
accumulate `0`/`1`. -/
def Tokenizer.parse_binary (t : Tokenizer) (fuel : Nat) : ScanResult :=
  let start_ln := t.ln
  let start_col := t.col
  match parse_radixLoop (fun c => c = '1' || c = '0') fuel (t.consume 2) [] with
  | none => none
  | some (num, t') =>
    some (.ok (⟨.Number .Binary, num, ⟨start_ln, start_col⟩⟩, t'))

/-- `Tokenizer::parse_hex`: consume the two-character prefix, then
accumulate ASCII hex digits. -/
def Tokenizer.parse_hex (t : Tokenizer) (fuel : Nat) : ScanResult :=
  let start_ln := t.ln
  let start_col := t.col
  match parse_radixLoop isAsciiHexDigit fuel (t.consume 2) [] with
  | none => none
  | some (num, t') =>
    some (.ok (⟨.Number .Hex, num, ⟨start_ln, start_col⟩⟩, t'))

/-- `Tokenizer::parse_octal`: consume the two-character prefix, then
accumulate `0`–`7`. -/
def Tokenizer.parse_octal (t : Tokenizer) (fuel : Nat) : ScanResult :=
  let start_ln := t.ln
  let start_col := t.col
  match parse_radixLoop (fun c => '0' ≤ c && c ≤ '7') fuel (t.consume 2) [] with
  | none => none
  | some (num, t') =>
    some (.ok (⟨.Number .Octal, num, ⟨start_ln, start_col⟩⟩, t'))

/-- The escape decoding of `Tokenizer::parse_string`'s `match *c` block:
recognized escapes decode to one control character, anything else is kept
as the two characters `\c`. -/
def decodeEscape (c : Char) : List Char :=
  if c = 'n' then ['\n']
  else if c = '0' then [Char.ofNat 0]
  else if c = 't' then ['\t']
  else if c = 'r' then [Char.ofNat 13]
  else if c = '\\' then ['\\']
  else ['\\', c]

/-- The loop of `Tokenizer::parse_string`. -/
def parse_stringLoop (delim : Char) :
    Nat → Tokenizer → List Char → Bool → Option (List Char × Tokenizer)
  | 0, _, _, _ => none
  | fuel + 1, t, s, is_escaped =>
    match t.get_next_char with
    | none => some (s, t)
    | some c =>
      if c = delim ∧ is_escaped = false then some (s, t.consume 1)
      else if c = '\\' ∧ is_escaped = false then
        parse_stringLoop delim fuel (t.consume 1) s true
      else if is_escaped then
        parse_stringLoop delim fuel (t.consume 1) (s ++ decodeEscape c) false
      else parse_stringLoop delim fuel (t.consume 1) (s ++ [c]) false

/-- `Tokenizer::parse_string(delim)`: the start location is recorded
before the opening delimiter is consumed. -/
def Tokenizer.parse_string (t : Tokenizer) (fuel : Nat) (delim : Option Char) : ScanResult :=
  let start_ln := t.ln
  let start_col := t.col
  let d := delim.getD '"'
  match parse_stringLoop d fuel (t.consume 1) [] false with
  | none => none
  | some (s, t') =>
    some (.ok (⟨.String, s, ⟨start_ln, start_col⟩⟩, t'))

/-- The strict-mode loop of `Tokenizer::parse_char`: a backslash toggles
escape mode and is dropped; every other character (escaped or not) is
pushed literally. -/
def parse_charLoop : Nat → Tokenizer → List Char → Bool → Option (List Char × Tokenizer)
  | 0, _, _, _ => none
  | fuel + 1, t, chr, is_escaped =>
    match t.get_next_char with
    | none => some (chr, t)
    | some c =>
      if c = '\'' ∧ is_escaped = false then some (chr, t.consume 1)
      else if c = '\\' ∧ is_escaped = false then
        parse_charLoop fuel (t.consume 1) chr true
      else parse_charLoop fuel (t.consume 1) (chr ++ [c]) false

/-- `Tokenizer::parse_char`.  In strict mode the length check compares the
Rust byte length (`chr.len()`) against 1. -/
def Tokenizer.parse_char (t : Tokenizer) (fuel : Nat) : ScanResult :=
  if t.config.parse_char_as_string then t.parse_string fuel (some '\'')
  else
    let start_ln := t.ln
    let start_col := t.col
    match parse_charLoop fuel (t.consume 1) [] false with
    | none => none
    | some (chr, t') =>
      let out_type : TokenType :=
        if t'.config.parse_char_as_string = false then .Char else .String
      if out_type = TokenType.Char ∧ 1 < utf8Len chr then
        some (.error (.NotAValidChar ⟨start_ln, start_col⟩))
      else
        some (.ok (⟨out_type, chr, ⟨start_ln, start_col⟩⟩, t'))

/-- The main loop of `Tokenizer::tokenize`, with fuel.  Sub-scanners are
run with the full current fuel; the loop recurses on one unit less. -/
def tokenizeLoop : Nat → Tokenizer → List Token →
    Option (Except TokenizationError (List Token))
  | 0, _, _ => none
  | fuel + 1, t, tokens =>
    if t.is_out_of_bound = .Out then some (.ok tokens)
    else if t.is_out_of_bound = .Empty then tokenizeLoop fuel t.next_line tokens
    else
      let next_char := t.get_next_char.getD ' '
      if next_char = ' ' then tokenizeLoop fuel (t.consume 1) tokens
      else if next_char.isDigit ∧ t.config.ignore_numbers = false then
        let step : ScanResult :=
          if next_char = '0' then
            match t.peek_tok with
            | some c =>
              if c = 'x' then t.parse_hex (fuel + 1)
              else if c = 'o' then t.parse_octal (fuel + 1)
              else if c = 'b' then t.parse_binary (fuel + 1)
              else if c = '.' then t.parse_float (fuel + 1)
              else t.parse_number (fuel + 1)
            | none => t.parse_number (fuel + 1)
          else t.parse_number (fuel + 1)
        match step with
        | none => none
        | some (.error e) => some (.error e)
        | some (.ok (tok, t')) => tokenizeLoop fuel t' (tokens ++ [tok])
      else if next_char = '.' then
        match t.peek_tok with
        | some c =>
          if c = '\n' then
            tokenizeLoop fuel (t.consume 1)
              (tokens ++ [⟨.Symbol, ['.'], ⟨t.ln, t.col⟩⟩])
          else if c.isDigit ∧ t.config.ignore_numbers = false then
            match t.parse_float (fuel + 1) with
            | none => none
            | some (.error e) => some (.error e)
            | some (.ok (tok, t')) => tokenizeLoop fuel t' (tokens ++ [tok])
          else
            tokenizeLoop fuel (t.consume 1)
              (tokens ++ [⟨.Symbol, ['.'], ⟨t.ln, t.col⟩⟩])
        | none =>
          tokenizeLoop fuel (t.consume 1)
            (tokens ++ [⟨.Symbol, ['.'], ⟨t.ln, t.col⟩⟩])
      else if next_char = '"' then
        match t.parse_string (fuel + 1) none with
        | none => none
        | some (.error e) => some (.error e)
        | some (.ok (tok, t')) => tokenizeLoop fuel t' (tokens ++ [tok])
      else if next_char = '\'' then
        match t.parse_char (fuel + 1) with
        | none => none
        | some (.error e) => some (.error e)
        | some (.ok (tok, t')) => tokenizeLoop fuel t' (tokens ++ [tok])
      else if t.config.consider_as_symbols.contains next_char then
        tokenizeLoop fuel (t.consume 1)
          (tokens ++ [⟨.Symbol, [next_char], ⟨t.ln, t.col⟩⟩])
      else if t.config.consider_as_operators.contains next_char then
        tokenizeLoop fuel (t.consume 1)
          (tokens ++ [⟨.Operator, [next_char], ⟨t.ln, t.col⟩⟩])
      else
        match t.parse_word (fuel + 1) with
        | none => none
        | some (.error e) => some (.error e)
        | some (.ok (tok, t')) => tokenizeLoop fuel t' (tokens ++ [tok])

/-- The scan measure: remaining grid cells (plus one per remaining line)
from the cursor on.  Fuel beyond this measure is never exhausted. -/
def sumLen (lines : List (List Char)) : Nat :=
  (lines.map (fun l => l.length + 1)).sum

/-- Measure of a tokenizer state. -/
def meas (t : Tokenizer) : Nat := sumLen (t.lines.drop t.ln) - t.col

/-- `Tokenizer::tokenize`, with fuel sufficient for the whole input (as
proved by the termination theorem). -/
def Tokenizer.tokenize (t : Tokenizer) :
    Option (Except TokenizationError (List Token)) :=
  tokenizeLoop (meas t + 1) t []

/-- Strip one trailing carriage return (Rust `str::lines` line endings). -/
def stripCR (l : List Char) : List Char :=
  if l.getLast? = some '\r' then l.dropLast else l

/-- Split on `'\n'`, keeping empty pieces. -/
def splitNL (s : List Char) : List (List Char) :=
  match s with
  | [] => [[]]
  | c :: rest =>
    let r := splitNL rest
    if c = '\n' then [] :: r
    else match r with
      | [] => [[c]]
      | p :: ps => (c :: p) :: ps

/-- Rust `str::lines`: split on `'\n'` (with optional preceding `'\r'`),
with no final empty line for a trailing newline, and no lines at all for
the empty string. -/
def splitLines (s : List Char) : List (List Char) :=
  if s = [] then []
  else
    let pieces := splitNL s
    let pieces := if s.getLast? = some '\n' then pieces.dropLast else pieces
    pieces.map stripCR

/-- `Tokenizer::new(input, config)`. -/
def Tokenizer.new (input : List Char) (config : TokenizerConfig) : Tokenizer :=
  { lines := splitLines input, ln := 0, col := 0, config := config }

/-- The builder configuration with `'_'` allowed as digit separator. -/
def sepConfig : TokenizerConfig :=
  { builderNewConfig with allow_digit_separator := .Yes '_' }

instance {ε α : Type} [DecidableEq ε] [DecidableEq α] : DecidableEq (Except ε α) :=
  fun a b =>
    match a, b with
    | .ok x, .ok y =>
      match decEq x y with
      | isTrue h => isTrue (by rw [h])
      | isFalse h => isFalse (fun hh => h (Except.ok.inj hh))
    | .error x, .error y =>
      match decEq x y with
      | isTrue h => isTrue (by rw [h])
      | isFalse h => isFalse (fun hh => h (Except.error.inj hh))
    | .ok _, .error _ => isFalse (fun hh => Except.noConfusion hh)
    | .error _, .ok _ => isFalse (fun hh => Except.noConfusion hh)

/-- The two-line grid `["ab", "c"]` with the cursor at the origin, used to
probe the hypothetical bounds classifier. -/
def probeState : Tokenizer :=
  ⟨[['a', 'b'], ['c']], 0, 0, builderNewConfig⟩

/-- A single-line scanner state: grid `[l]`, cursor at `(0, j)`. -/
def mk1 (l : List Char) (cfg : TokenizerConfig) (j : Nat) : Tokenizer :=
  ⟨[l], 0, j, cfg⟩

/-- Cursor sanity: the column is zero or strictly inside the current
line.  This holds for the initial state and is preserved by every cursor
move of the scanner. -/
def Inv (t : Tokenizer) : Prop :=
  t.col = 0 ∨ (t.ln < t.lines.length ∧ t.col < (lineAt t t.ln).length)

/-! ## Theorems -/

/-- C6: tokenizing `"0x1A"` with the default configuration yields exactly
one token of kind `Number Hex` with text `"1A"` at the location of the
leading `0`; the `0x` prefix is consumed but not retained. -/
theorem hex_literal_0x1A :
    (Tokenizer.new ['0', 'x', '1', 'A'] builderNewConfig).tokenize =
      some (.ok [⟨.Number .Hex, ['1', 'A'], ⟨0, 0⟩⟩]) := by
  decide

/-- C7: with digit separator `'_'` configured, `"3_000"` yields one
`Number Seq` token with text `"3000"` (separators elided, following digits
kept), and `"3_"` fails with `UnexpectedDigitSeparator` at the separator's
location. -/
theorem digit_separator_elision_and_failure :
    (Tokenizer.new ['3', '_', '0', '0', '0'] sepConfig).tokenize =
        some (.ok [⟨.Number .Seq, ['3', '0', '0', '0'], ⟨0, 0⟩⟩])
      ∧ (Tokenizer.new ['3', '_'] sepConfig).tokenize =
        some (.error (.UnexpectedDigitSeparator ⟨0, 1⟩)) := by
  decide

/-- C8: with numbers enabled, `".5"` yields one `Number Float` token whose
text is `"0.5"` — the float scanner synthesizes the leading `"0."`. -/
theorem leading_dot_float :
    (Tokenizer.new ['.', '5'] builderNewConfig).tokenize =
      some (.ok [⟨.Number .Float, ['0', '.', '5'], ⟨0, 0⟩⟩]) := by
  decide

/-- C4 evaluation: on the grid `["ab", "c"]` with the cursor at `(0, 0)`,
the hypothetical classifier `is_out_of_bound_for 1 1` answers `Within`
even though column `1` is not below the length of line `1` (which is 1):
the source compares the column against the length of the *cursor's* line
(`self.lines[self.ln]`), so the §3 invariant fails for hypothetical
positions on a different line. -/
theorem bounds_classifier_wrong_line_length :
    probeState.is_out_of_bound_for 1 1 = .Within
      ∧ (lineAt probeState 1).length ≤ 1 := by
  decide

/-- C1 counterexample: in strict char mode the escape sequence `\n` is
*not* decoded — scanning `'\n'` yields a Char token whose text is the
single letter `n`, not the newline character.  The strict character
scanner drops the backslash and pushes the following character
literally. -/
theorem strict_char_does_not_decode_escapes :
    (Tokenizer.new ['\'', '\\', 'n', '\''] builderNewConfig).tokenize =
        some (.ok [⟨.Char, ['n'], ⟨0, 0⟩⟩])
      ∧ (['n'] : List Char) ≠ ['\n'] := by
  decide

/-- C2 counterexample: in strict char mode the length check is on the
UTF-8 *byte* length of the decoded text (Rust `String::len`), so the
single non-ASCII character `é` between single quotes is rejected with
`NotAValidChar` instead of producing a Char token. -/
theorem non_ascii_char_rejected :
    (Tokenizer.new ['\'', 'é', '\''] builderNewConfig).tokenize =
      some (.error (.NotAValidChar ⟨0, 0⟩)) := by
  decide

/-- C3 counterexample: tokenizing `"1_2_x"` with separator `'_'` reports
`UnexpectedDigitSeparator` at column 2, while the offending separator
itself sits at column 3 (column 2 holds the digit `2`): each earlier
separator shifts the reported column left by one. -/
theorem separator_error_column_shifted :
    (Tokenizer.new ['1', '_', '2', '_', 'x'] sepConfig).tokenize =
        some (.error (.UnexpectedDigitSeparator ⟨0, 2⟩))
      ∧ (['1', '_', '2', '_', 'x'] : List Char).getD 3 ' ' = '_'
      ∧ (['1', '_', '2', '_', 'x'] : List Char).getD 2 ' ' ≠ '_' := by
  decide

/-- C5: the scan fails only in the two documented cases.  The quoted
literal scanner can never return an error (an unterminated literal
silently yields the token scanned so far, as the `"ab` instance shows),
and a radix literal with an empty digit run such as the lone `0x` yields a
`Number Hex` token with empty text, not an error. -/
theorem errors_only_documented_cases :
    (∀ (t : Tokenizer) (fuel : Nat) (delim : Option Char)
        (r : Except TokenizationError (Token × Tokenizer)),
        t.parse_string fuel delim = some r → ∃ tok t', r = .ok (tok, t'))
      ∧ (Tokenizer.new ['"', 'a', 'b'] builderNewConfig).tokenize =
          some (.ok [⟨.String, ['a', 'b'], ⟨0, 0⟩⟩])
      ∧ (Tokenizer.new ['0', 'x'] builderNewConfig).tokenize =
          some (.ok [⟨.Number .Hex, [], ⟨0, 0⟩⟩]) := by
  refine ⟨?_, by decide, by decide⟩
  intro t fuel delim r h
  cases hl : parse_stringLoop (delim.getD '"') fuel (t.consume 1) [] false with
  | none => simp [Tokenizer.parse_string, hl] at h
  | some p =>
    obtain ⟨s, t'⟩ := p
    simp [Tokenizer.parse_string, hl] at h
    exact ⟨_, _, h.symm⟩

/-- C5 witness: the first conjunct applied to the unterminated one-quote
input `"` at fuel 2, whose scan result is an `ok` with empty text. -/
theorem errors_only_documented_cases_witness :
    ∃ tok t',
      (Except.ok (⟨.String, [], ⟨0, 0⟩⟩, (⟨[['"']], 1, 0, builderNewConfig⟩ : Tokenizer)) :
          Except TokenizationError (Token × Tokenizer)) = .ok (tok, t') :=
  errors_only_documented_cases.1 ⟨[['"']], 0, 0, builderNewConfig⟩ 2 none _ rfl

/-- C9: advancing past the last column of a line lands on column 0 of the
next line (`consume` falls through to `next_line`), and token
accumulation continues across the boundary: the two-line input `"ab\ncd"`
yields the single Word token `"abcd"`, not two tokens. -/
theorem word_spans_line_boundary :
    (∀ t : Tokenizer, t.ln < t.lines.length →
        (lineAt t t.ln).length ≤ t.col + 1 → t.consume 1 = t.next_line)
      ∧ (Tokenizer.new ['a', 'b', '\n', 'c', 'd'] builderNewConfig).tokenize =
          some (.ok [⟨.Word, ['a', 'b', 'c', 'd'], ⟨0, 0⟩⟩]) := by
  refine ⟨?_, by decide⟩
  intro t h1 h2
  simp only [Tokenizer.consume]
  rw [if_neg (by omega), if_pos h2]

/-- C9 witness: the boundary step applied at the last column of the first
line of the grid `["ab", "c"]`. -/
theorem word_spans_line_boundary_witness :
    (⟨[['a', 'b'], ['c']], 0, 1, builderNewConfig⟩ : Tokenizer).consume 1 =
      (⟨[['a', 'b'], ['c']], 0, 1, builderNewConfig⟩ : Tokenizer).next_line :=
  word_spans_line_boundary.1 _ (by decide) (by decide)

/-! ### Evaluation lemmas for single-line states -/

theorem mk1_config (l : List Char) (cfg : TokenizerConfig) (j : Nat) :
    (mk1 l cfg j).config = cfg := rfl

theorem mk1_ln (l : List Char) (cfg : TokenizerConfig) (j : Nat) :
    (mk1 l cfg j).ln = 0 := rfl

theorem mk1_col (l : List Char) (cfg : TokenizerConfig) (j : Nat) :
    (mk1 l cfg j).col = j := rfl

theorem mk1_is_out_of_bound (l : List Char) (cfg : TokenizerConfig) (j : Nat)
    (h : j < l.length) : (mk1 l cfg j).is_out_of_bound = .Within := by
  have h0 : l.length ≠ 0 := by omega
  simp only [mk1, Tokenizer.is_out_of_bound, lineAt]
  simp [h0]
  omega

theorem mk1_get_next_char (l : List Char) (cfg : TokenizerConfig) (j : Nat)
    (h : j < l.length) : (mk1 l cfg j).get_next_char = some (l.getD j ' ') := by
  unfold Tokenizer.get_next_char
  rw [mk1_is_out_of_bound l cfg j h]
  simp [mk1, lineAt]

theorem mk1_consume_lt (l : List Char) (cfg : TokenizerConfig) (j : Nat)
    (h : j + 1 < l.length) : (mk1 l cfg j).consume 1 = mk1 l cfg (j + 1) := by
  have h2 : ¬ (l.length ≤ j + 1) := by omega
  simp [Tokenizer.consume, mk1, lineAt, h2]

theorem mk1_consume_ge (l : List Char) (cfg : TokenizerConfig) (j : Nat)
    (h : l.length ≤ j + 1) : (mk1 l cfg j).consume 1 = ⟨[l], 1, 0, cfg⟩ := by
  simp [Tokenizer.consume, mk1, lineAt, Tokenizer.next_line, h]

theorem out_is_out_of_bound (t : Tokenizer) (h : t.lines.length ≤ t.ln) :
    t.is_out_of_bound = .Out := by
  simp [Tokenizer.is_out_of_bound, h]

theorem out_get_next_char (t : Tokenizer) (h : t.lines.length ≤ t.ln) :
    t.get_next_char = none := by
  simp [Tokenizer.get_next_char, out_is_out_of_bound t h]

set_option maxHeartbeats 2000000 in
/-- The strict character scanner on the single-line grid `' c '`: no
escape is involved; the result is a Char token with text `[c]` when the
UTF-8 byte length of `c` is 1 and `NotAValidChar` otherwise. -/
theorem parse_char_strict_single (c : Char) (cfg : TokenizerConfig)
    (hcfg : cfg.parse_char_as_string = false)
    (h1 : c ≠ '\'') (h2 : c ≠ '\\') :
    (mk1 ['\'', c, '\''] cfg 0).parse_char 5 =
      if 1 < c.utf8Size then some (.error (.NotAValidChar ⟨0, 0⟩))
      else some (.ok (⟨.Char, [c], ⟨0, 0⟩⟩, ⟨[['\'', c, '\'']], 1, 0, cfg⟩)) := by
  have e1 : (mk1 ['\'', c, '\''] cfg 0).consume 1 = mk1 ['\'', c, '\''] cfg 1 :=
    mk1_consume_lt _ _ _ (by simp)
  have e2 : (mk1 ['\'', c, '\''] cfg 1).consume 1 = mk1 ['\'', c, '\''] cfg 2 :=
    mk1_consume_lt _ _ _ (by simp)
  have e3 : (mk1 ['\'', c, '\''] cfg 2).consume 1 = ⟨[['\'', c, '\'']], 1, 0, cfg⟩ :=
    mk1_consume_ge _ _ _ (by simp)
  have g1 : (mk1 ['\'', c, '\''] cfg 1).get_next_char = some c := by
    simpa using mk1_get_next_char ['\'', c, '\''] cfg 1 (by simp)
  have g2 : (mk1 ['\'', c, '\''] cfg 2).get_next_char = some '\'' := by
    simpa using mk1_get_next_char ['\'', c, '\''] cfg 2 (by simp)
  have hloop : parse_charLoop 5 (mk1 ['\'', c, '\''] cfg 1) [] false =
      some ([c], ⟨[['\'', c, '\'']], 1, 0, cfg⟩) := by
    have l1 : parse_charLoop 5 (mk1 ['\'', c, '\''] cfg 1) [] false =
        parse_charLoop 4 (mk1 ['\'', c, '\''] cfg 2) [c] false := by
      rw [show (5 : Nat) = Nat.succ 4 from rfl, parse_charLoop.eq_2]
      simp only [g1]
      rw [if_neg (by simp [h1]), if_neg (by simp [h2]), e2]
      simp
    have l2 : parse_charLoop 4 (mk1 ['\'', c, '\''] cfg 2) [c] false =
        some ([c], ⟨[['\'', c, '\'']], 1, 0, cfg⟩) := by
      rw [show (4 : Nat) = Nat.succ 3 from rfl, parse_charLoop.eq_2]
      simp only [g2]
      rw [if_pos (by simp), e3]
    exact l1.trans l2
  simp only [Tokenizer.parse_char, hcfg, Bool.false_eq_true, if_false, e1, hloop]
  simp [utf8Len, hcfg, mk1]

set_option maxHeartbeats 1000000 in
/-- C2 (amended): in strict char mode, for every character `c` other than
the quote, the backslash and the newline, scanning `c` between single
quotes yields a Char token with text `[c]` when `c` is one UTF-8 byte
(ASCII), and fails with `NotAValidChar` when `c` occupies more than one
byte — the length check is on Rust `String::len`, a byte count. -/
theorem strict_char_mode_single_char (c : Char)
    (h1 : c ≠ '\'') (h2 : c ≠ '\\') (h3 : c ≠ '\n') :
    (Tokenizer.new ['\'', c, '\''] builderNewConfig).tokenize =
      some (if 1 < c.utf8Size then .error (.NotAValidChar ⟨0, 0⟩)
            else .ok [⟨.Char, [c], ⟨0, 0⟩⟩]) := by
  have hg : (['\'', c, '\''] : List Char).getLast? = some '\'' := rfl
  have hnew : Tokenizer.new ['\'', c, '\''] builderNewConfig =
      mk1 ['\'', c, '\''] builderNewConfig 0 := by
    simp [Tokenizer.new, mk1, splitLines, splitNL, stripCR, h3, hg]
  have hm : meas (mk1 ['\'', c, '\''] builderNewConfig 0) = 4 := by
    simp [meas, mk1, sumLen]
  have hW : (mk1 ['\'', c, '\''] builderNewConfig 0).is_out_of_bound = .Within :=
    mk1_is_out_of_bound _ _ _ (by simp)
  have g0 : (mk1 ['\'', c, '\''] builderNewConfig 0).get_next_char = some '\'' := by
    simpa using mk1_get_next_char ['\'', c, '\''] builderNewConfig 0 (by simp)
  have hout : ((⟨[['\'', c, '\'']], 1, 0, builderNewConfig⟩ : Tokenizer)).is_out_of_bound
      = .Out := by
    simp [Tokenizer.is_out_of_bound]
  have hpc := parse_char_strict_single c builderNewConfig rfl h1 h2
  have hd : ('\'' : Char).isDigit = false := by decide
  simp only [Tokenizer.tokenize, hnew, hm]
  by_cases hu : 1 < c.utf8Size
  · simp [tokenizeLoop, hW, g0, hout, hpc, hu, hd]
  · simp [tokenizeLoop, hW, g0, hout, hpc, hu, hd]
/-- C2 witness: the ASCII instance `'z'`, which scans to a Char token. -/
theorem strict_char_mode_single_char_witness :
    (Tokenizer.new ['\'', 'z', '\''] builderNewConfig).tokenize =
      some (.ok [⟨.Char, ['z'], ⟨0, 0⟩⟩]) := by
  have h := strict_char_mode_single_char 'z' (by decide) (by decide) (by decide)
  rw [if_neg (by decide)] at h
  exact h

/-- The string scanner on the single-line grid `d \ x d` (any delimiter
`d` other than the backslash): the escape `\x` is decoded by the shared
escape table and the closing delimiter ends the literal. -/
theorem parse_string_escape_single (d x : Char) (cfg : TokenizerConfig)
    (hd : d ≠ '\\') :
    (mk1 [d, '\\', x, d] cfg 0).parse_string 5 (some d) =
      some (.ok (⟨.String, decodeEscape x, ⟨0, 0⟩⟩, ⟨[[d, '\\', x, d]], 1, 0, cfg⟩)) := by
  have e1 : (mk1 [d, '\\', x, d] cfg 0).consume 1 = mk1 [d, '\\', x, d] cfg 1 :=
    mk1_consume_lt _ _ _ (by simp)
  have e2 : (mk1 [d, '\\', x, d] cfg 1).consume 1 = mk1 [d, '\\', x, d] cfg 2 :=
    mk1_consume_lt _ _ _ (by simp)
  have e3 : (mk1 [d, '\\', x, d] cfg 2).consume 1 = mk1 [d, '\\', x, d] cfg 3 :=
    mk1_consume_lt _ _ _ (by simp)
  have e4 : (mk1 [d, '\\', x, d] cfg 3).consume 1 = ⟨[[d, '\\', x, d]], 1, 0, cfg⟩ :=
    mk1_consume_ge _ _ _ (by simp)
  have g1 : (mk1 [d, '\\', x, d] cfg 1).get_next_char = some '\\' := by
    simpa using mk1_get_next_char [d, '\\', x, d] cfg 1 (by simp)
  have g2 : (mk1 [d, '\\', x, d] cfg 2).get_next_char = some x := by
    simpa using mk1_get_next_char [d, '\\', x, d] cfg 2 (by simp)
  have g3 : (mk1 [d, '\\', x, d] cfg 3).get_next_char = some d := by
    simpa using mk1_get_next_char [d, '\\', x, d] cfg 3 (by simp)
  have l1 : parse_stringLoop d 5 (mk1 [d, '\\', x, d] cfg 1) [] false =
      parse_stringLoop d 4 (mk1 [d, '\\', x, d] cfg 2) [] true := by
    rw [show (5 : Nat) = Nat.succ 4 from rfl, parse_stringLoop.eq_2]
    simp only [g1]
    rw [if_neg (by simp [Ne.symm hd]), if_pos (by simp), e2]
  have l2 : parse_stringLoop d 4 (mk1 [d, '\\', x, d] cfg 2) [] true =
      parse_stringLoop d 3 (mk1 [d, '\\', x, d] cfg 3) (decodeEscape x) false := by
    rw [show (4 : Nat) = Nat.succ 3 from rfl, parse_stringLoop.eq_2]
    simp only [g2]
    rw [if_neg (by simp), if_neg (by simp), if_pos trivial, e3]
    simp
  have l3 : parse_stringLoop d 3 (mk1 [d, '\\', x, d] cfg 3) (decodeEscape x) false =
      some (decodeEscape x, ⟨[[d, '\\', x, d]], 1, 0, cfg⟩) := by
    rw [show (3 : Nat) = Nat.succ 2 from rfl, parse_stringLoop.eq_2]
    simp only [g3]
    rw [if_pos (by simp), e4]
  simp only [Tokenizer.parse_string, Option.getD_some, e1, l1, l2, l3]
  simp [mk1]

set_option maxHeartbeats 400000 in
/-- C1 (amended): escape decoding lives in the *string* scanner: for every
delimiter `d` other than backslash and every escaped character `x`,
scanning the literal `d\xd` decodes `\x` by the shared table — `\n`, `\0`,
`\t`, `\r`, `\\` become the single control characters and any other `\x`
stays as the two characters `\x`.  The strict character scanner does not
decode escapes at all: `'\n'` in strict char mode yields the one-letter
text `n`. -/
theorem escape_decoding_in_string_scanner :
    (∀ (d x : Char) (cfg : TokenizerConfig), d ≠ '\\' →
        (mk1 [d, '\\', x, d] cfg 0).parse_string 5 (some d) =
          some (.ok (⟨.String, decodeEscape x, ⟨0, 0⟩⟩, ⟨[[d, '\\', x, d]], 1, 0, cfg⟩)))
      ∧ decodeEscape 'n' = ['\n'] ∧ decodeEscape '0' = [Char.ofNat 0]
      ∧ decodeEscape 't' = ['\t'] ∧ decodeEscape 'r' = [Char.ofNat 13]
      ∧ decodeEscape '\\' = ['\\']
      ∧ (∀ x : Char, x ∉ (['n', '0', 't', 'r', '\\'] : List Char) →
          decodeEscape x = ['\\', x])
      ∧ (Tokenizer.new ['\'', '\\', 'n', '\''] builderNewConfig).tokenize =
          some (.ok [⟨.Char, ['n'], ⟨0, 0⟩⟩]) := by
  refine ⟨parse_string_escape_single, by decide, by decide, by decide, by decide,
    by decide, ?_, by decide⟩
  intro x hx
  simp only [List.mem_cons, List.not_mem_nil, or_false, not_or] at hx
  obtain ⟨hn, h0, ht, hr, hb⟩ := hx
  simp [decodeEscape, hn, h0, ht, hr, hb]

/-- C1 witness: the unrecognized escape `\q` inside a double-quoted
literal stays as the two characters backslash-q. -/
theorem escape_decoding_in_string_scanner_witness :
    (mk1 ['"', '\\', 'q', '"'] builderNewConfig 0).parse_string 5 (some '"') =
      some (.ok (⟨.String, ['\\', 'q'], ⟨0, 0⟩⟩,
        ⟨[['"', '\\', 'q', '"']], 1, 0, builderNewConfig⟩)) :=
  escape_decoding_in_string_scanner.1 '"' 'q' builderNewConfig (by decide)

/-! ### Digit-separator error location (C3) -/

theorem splitNL_no_newline : ∀ (s : List Char), (∀ c ∈ s, c ≠ '\n') → splitNL s = [s] := by
  intro s
  induction s with
  | nil => intro _; rfl
  | cons c rest ih =>
    intro h
    have hc : c ≠ '\n' := h c (by simp)
    have hr := ih (fun d hd => h d (by simp [hd]))
    simp [splitNL, hr, hc]

theorem splitLines_single (s : List Char) (hne : s ≠ [])
    (h : ∀ c ∈ s, c ≠ '\n') (h2 : s.getLast? ≠ some '\n')
    (h3 : s.getLast? ≠ some '\r') :
    splitLines s = [s] := by
  simp [splitLines, splitNL_no_newline s h, hne, h2, stripCR, h3]

/-- An ASCII digit is none of the dispatch-relevant special characters. -/
theorem isDigit_ne (c : Char) (h : c.isDigit = true) :
    c ≠ '\n' ∧ c ≠ '\r' ∧ c ≠ ' ' ∧ c ≠ 'x' ∧ c ≠ 'o' ∧ c ≠ 'b' ∧ c ≠ '.' ∧ c ≠ '_' := by
  refine ⟨?_, ?_, ?_, ?_, ?_, ?_, ?_, ?_⟩ <;> (rintro rfl; exact absurd h (by decide))

theorem mk1_peek_tok (l : List Char) (cfg : TokenizerConfig) (h : 2 ≤ l.length) :
    (mk1 l cfg 0).peek_tok = some (l.getD 1 ' ') := by
  have h1 : ¬ (l.length ≤ 0 + 1) := by omega
  have h0 : l.length ≠ 0 := by omega
  have h2 : ¬ (l.length ≤ 1) := by omega
  simp [Tokenizer.peek_tok, Tokenizer.fake_consume, fakeSteps, fakeStep, mk1, lineAt,
    Tokenizer.is_out_of_bound_for, h1, h0, h2]

/-- The decimal scanner's loop on a line that is a digit run followed by
the configured separator: it fails with `UnexpectedDigitSeparator` whose
column is `inner_col` plus the number of remaining digits — i.e. the
separator's own column when no separator was consumed earlier. -/
theorem numberLoop_digits_then_sep (w : Char) (cfg : TokenizerConfig)
    (hsep : cfg.allow_digit_separator = .Yes w) (hw : w.isDigit = false)
    (hwdot : w ≠ '.') :
    ∀ (rest pre : List Char) (fuel : Nat) (num : List Char) (ty : NumberType) (pf : Bool),
      (∀ c ∈ rest, c.isDigit = true) → rest.length + 1 ≤ fuel →
      parse_numberLoop 0 fuel (mk1 (pre ++ rest ++ [w]) cfg pre.length) num ty pf
          pre.length =
        some (.error (.UnexpectedDigitSeparator ⟨0, pre.length + rest.length⟩)) := by
  intro rest
  induction rest with
  | nil =>
    intro pre fuel num ty pf _ hfuel
    obtain ⟨f, rfl⟩ : ∃ f, fuel = f + 1 := ⟨fuel - 1, by omega⟩
    have hget : (mk1 (pre ++ [w]) cfg pre.length).get_next_char = some w := by
      rw [mk1_get_next_char _ _ _ (by simp)]
      rw [List.getD_append_right _ _ _ _ (le_refl _)]
      simp
    have hcons : (mk1 (pre ++ [w]) cfg pre.length).consume 1 =
        ⟨[pre ++ [w]], 1, 0, cfg⟩ :=
      mk1_consume_ge _ _ _ (by simp)
    have hnone : ((⟨[pre ++ [w]], 1, 0, cfg⟩ : Tokenizer)).get_next_char = none :=
      out_get_next_char _ (by simp)
    rw [show f + 1 = Nat.succ f from rfl, parse_numberLoop.eq_2]
    simp [hget, hw, hwdot, hsep, hcons, hnone, mk1_config]
  | cons c cs ih =>
    intro pre fuel num ty pf hd hfuel
    obtain ⟨f, rfl⟩ : ∃ f, fuel = f + 1 := ⟨fuel - 1, by omega⟩
    have hc : c.isDigit = true := hd c (by simp)
    have hget : (mk1 (pre ++ c :: (cs ++ [w])) cfg pre.length).get_next_char = some c := by
      rw [mk1_get_next_char _ _ _ (by simp only [List.length_append, List.length_cons]; omega)]
      rw [List.getD_append_right _ _ _ _ (le_refl _)]
      simp
    have hcons : (mk1 (pre ++ c :: (cs ++ [w])) cfg pre.length).consume 1 =
        mk1 (pre ++ c :: (cs ++ [w])) cfg (pre.length + 1) :=
      mk1_consume_lt _ _ _ (by simp only [List.length_append, List.length_cons]; omega)
    have ihh := ih (pre ++ [c]) f (num ++ [c]) ty pf
      (fun d hdm => hd d (by simp [hdm])) (by simp at hfuel ⊢; omega)
    simp only [List.append_assoc, List.cons_append, List.singleton_append,
      List.nil_append, List.length_append, List.length_cons, List.length_nil] at ihh ⊢
    rw [show f + 1 = Nat.succ f from rfl, parse_numberLoop.eq_2]
    simp only [hget]
    rw [if_pos hc, hcons]
    have harith : pre.length + (cs.length + 1) = pre.length + 1 + cs.length := by omega
    rw [harith]
    exact ihh

/-- `parse_number` on a digit run followed by the separator at end of
input: the error column is the run's length, the separator's own column. -/
theorem parse_number_digits_then_sep (w : Char) (cfg : TokenizerConfig)
    (hsep : cfg.allow_digit_separator = .Yes w) (hw : w.isDigit = false)
    (hwdot : w ≠ '.') (ds : List Char) (hd : ∀ c ∈ ds, c.isDigit = true)
    (fuel : Nat) (hfuel : ds.length + 1 ≤ fuel) :
    (mk1 (ds ++ [w]) cfg 0).parse_number fuel =
      some (.error (.UnexpectedDigitSeparator ⟨0, ds.length⟩)) := by
  have h := numberLoop_digits_then_sep w cfg hsep hw hwdot ds [] fuel [] .Seq false hd hfuel
  simp only [List.nil_append, List.length_nil, Nat.zero_add] at h
  simp only [Tokenizer.parse_number, mk1_ln, mk1_col]
  rw [h]

set_option maxHeartbeats 1000000 in
/-- C3 (amended): when the numeric literal is a digit run with no earlier
separator, the `UnexpectedDigitSeparator` location *is* the separator's
own line and column: for every nonempty run of ASCII digits `ds`,
tokenizing `ds` followed by `'_'` (with separator `'_'` configured) fails
at line 0, column `ds.length` — exactly where the separator sits.  (With
earlier separators the reported column lags, as the counterexample
shows.) -/
theorem separator_error_at_separator_column_when_first (ds : List Char)
    (hne : ds ≠ []) (hd : ∀ c ∈ ds, c.isDigit = true) :
    (Tokenizer.new (ds ++ ['_']) sepConfig).tokenize =
      some (.error (.UnexpectedDigitSeparator ⟨0, ds.length⟩)) := by
  obtain ⟨e, ds', rfl⟩ := List.exists_cons_of_ne_nil hne
  simp only [List.cons_append, List.length_cons]
  have he : e.isDigit = true := hd e (by simp)
  obtain ⟨hen, her, hesp, hex, heo, heb, hedot, heu⟩ := isDigit_ne e he
  have hnl : ∀ c ∈ e :: (ds' ++ ['_']), c ≠ '\n' := by
    intro c hc
    simp only [List.mem_cons, List.mem_append, List.mem_singleton,
      List.not_mem_nil, or_false] at hc
    rcases hc with rfl | hc | rfl
    · exact hen
    · exact (isDigit_ne c (hd c (by simp [hc]))).1
    · decide
  have hlast : (e :: (ds' ++ ['_'])).getLast? = some '_' := by
    simpa using List.getLast?_concat (e :: ds')
  have hsplit : splitLines (e :: (ds' ++ ['_'])) = [e :: (ds' ++ ['_'])] :=
    splitLines_single _ (by simp) hnl (by rw [hlast]; decide) (by rw [hlast]; decide)
  have hnew : Tokenizer.new (e :: (ds' ++ ['_'])) sepConfig =
      mk1 (e :: (ds' ++ ['_'])) sepConfig 0 := by
    simp [Tokenizer.new, mk1, hsplit]
  have hm : meas (mk1 (e :: (ds' ++ ['_'])) sepConfig 0) = ds'.length + 3 := by
    simp [meas, mk1, sumLen]
  have hW := mk1_is_out_of_bound (e :: (ds' ++ ['_'])) sepConfig 0 (by simp)
  have g0 : (mk1 (e :: (ds' ++ ['_'])) sepConfig 0).get_next_char = some e := by
    simpa using mk1_get_next_char (e :: (ds' ++ ['_'])) sepConfig 0 (by simp)
  have hpeek : (mk1 (e :: (ds' ++ ['_'])) sepConfig 0).peek_tok =
      some ((ds' ++ ['_']).getD 0 ' ') := by
    have h2 : 2 ≤ (e :: (ds' ++ ['_'])).length := by simp
    simpa using mk1_peek_tok (e :: (ds' ++ ['_'])) sepConfig h2
  have hp : (ds' ++ ['_']).getD 0 ' ' = '_' ∨
      ((ds' ++ ['_']).getD 0 ' ').isDigit = true := by
    cases ds' with
    | nil => left; rfl
    | cons f fs => right; simpa using hd f (by simp)
  have hpx : ((ds' ++ ['_']).getD 0 ' ') ≠ 'x' ∧ ((ds' ++ ['_']).getD 0 ' ') ≠ 'o'
      ∧ ((ds' ++ ['_']).getD 0 ' ') ≠ 'b' ∧ ((ds' ++ ['_']).getD 0 ' ') ≠ '.' := by
    rcases hp with h | h
    · rw [h]; exact ⟨by decide, by decide, by decide, by decide⟩
    · have hq := isDigit_ne _ h
      exact ⟨hq.2.2.2.1, hq.2.2.2.2.1, hq.2.2.2.2.2.1, hq.2.2.2.2.2.2.1⟩
  have hpn := parse_number_digits_then_sep '_' sepConfig rfl (by decide) (by decide)
      (e :: ds') hd (ds'.length + 3 + 1) (by simp only [List.length_cons]; omega)
  simp only [List.cons_append, List.length_cons] at hpn
  simp only [Tokenizer.tokenize, hnew, hm]
  rw [show ds'.length + 3 + 1 = Nat.succ (ds'.length + 3) from rfl, tokenizeLoop.eq_2]
  simp only [hW, g0, mk1_config, hpeek, hpn, Option.getD_some]
  rw [if_neg (by decide), if_neg (by decide), if_neg hesp,
    if_pos (⟨he, rfl⟩ : e.isDigit = true ∧ sepConfig.ignore_numbers = false)]
  by_cases he0 : e = '0'
  · subst he0
    rw [if_pos rfl, if_neg hpx.1, if_neg hpx.2.1, if_neg hpx.2.2.1, if_neg hpx.2.2.2]
  · rw [if_neg he0]

/-- C3 witness: the run `"12"` followed by the separator: the error is at
column 2, the separator's own column. -/
theorem separator_error_at_separator_column_when_first_witness :
    (Tokenizer.new ['1', '2', '_'] sepConfig).tokenize =
      some (.error (.UnexpectedDigitSeparator ⟨0, 2⟩)) := by
  have h := separator_error_at_separator_column_when_first ['1', '2']
    (by decide) (by decide)
  simpa using h

/-! ### Termination of the scan (C10) -/

theorem out_consume (t : Tokenizer) (h : t.lines.length ≤ t.ln) :
    ∀ n, t.consume n = t := by
  intro n
  cases n with
  | zero => rfl
  | succ n =>
    have h1 : t.lines.length < t.ln + 1 := by omega
    simp [Tokenizer.consume, h1, out_is_out_of_bound t h]

/-- The three possible outcomes of a single `consume` step. -/
theorem consume_one_cases (t : Tokenizer) :
    (t.lines.length ≤ t.ln ∧ t.consume 1 = t)
    ∨ (t.ln < t.lines.length ∧ (lineAt t t.ln).length ≤ t.col + 1
        ∧ t.consume 1 = t.next_line)
    ∨ (t.ln < t.lines.length ∧ t.col + 1 < (lineAt t t.ln).length
        ∧ t.consume 1 = { t with col := t.col + 1 }) := by
  by_cases h1 : t.lines.length < t.ln + 1
  · exact Or.inl ⟨by omega, out_consume t (by omega) 1⟩
  · by_cases h2 : (lineAt t t.ln).length ≤ t.col + 1
    · exact Or.inr (Or.inl ⟨by omega, h2, by simp [Tokenizer.consume, h1, h2]⟩)
    · exact Or.inr (Or.inr ⟨by omega, by omega, by simp [Tokenizer.consume, h1, h2]⟩)

theorem consume_succ (t : Tokenizer) (n : Nat) :
    t.consume (n + 1) = (t.consume 1).consume n := by
  by_cases h1 : t.lines.length < t.ln + 1
  · rw [out_consume t (by omega) (n + 1), out_consume t (by omega) 1,
      out_consume t (by omega) n]
  · by_cases h2 : (lineAt t t.ln).length ≤ t.col + 1 <;>
      simp [Tokenizer.consume, h1, h2]

theorem inv_consume1 (t : Tokenizer) (h : Inv t) : Inv (t.consume 1) := by
  rcases consume_one_cases t with ⟨_, e⟩ | ⟨h1, _, e⟩ | ⟨h1, h2, e⟩
  · rw [e]; exact h
  · rw [e]; exact Or.inl rfl
  · rw [e]; exact Or.inr ⟨h1, h2⟩

theorem inv_next_line (t : Tokenizer) : Inv t.next_line := Or.inl rfl

theorem sumLen_drop_succ (ls : List (List Char)) (i : Nat) (h : i < ls.length) :
    sumLen (ls.drop i) = (ls.getD i []).length + 1 + sumLen (ls.drop (i + 1)) := by
  rw [List.drop_eq_getElem_cons h, List.getD_eq_getElem ls [] h]
  simp only [sumLen, List.map_cons, List.sum_cons]

theorem meas_next_line (t : Tokenizer) (h : t.ln < t.lines.length) (hc : t.col = 0) :
    meas t.next_line < meas t := by
  have hs := sumLen_drop_succ t.lines t.ln h
  simp only [meas, Tokenizer.next_line, hc, lineAt] at *
  omega

theorem meas_consume1_le (t : Tokenizer) (h : Inv t) :
    meas (t.consume 1) ≤ meas t := by
  have hcol : t.col = 0 ∨ (t.ln < t.lines.length ∧ t.col < (lineAt t t.ln).length) := h
  rcases consume_one_cases t with ⟨_, e⟩ | ⟨h1, h2, e⟩ | ⟨h1, h2, e⟩
  · rw [e]
  · rw [e]
    have hs := sumLen_drop_succ t.lines t.ln h1
    simp only [meas, Tokenizer.next_line, lineAt] at *
    omega
  · rw [e]
    have hs := sumLen_drop_succ t.lines t.ln h1
    simp only [meas, lineAt] at *
    omega

theorem meas_consume1_lt (t : Tokenizer) (h : Inv t) (hln : t.ln < t.lines.length) :
    meas (t.consume 1) < meas t := by
  have hcol : t.col = 0 ∨ (t.ln < t.lines.length ∧ t.col < (lineAt t t.ln).length) := h
  rcases consume_one_cases t with ⟨hc, e⟩ | ⟨h1, h2, e⟩ | ⟨h1, h2, e⟩
  · omega
  · rw [e]
    have hs := sumLen_drop_succ t.lines t.ln h1
    simp only [meas, Tokenizer.next_line, lineAt] at *
    omega
  · rw [e]
    have hs := sumLen_drop_succ t.lines t.ln h1
    simp only [meas, lineAt] at *
    omega

theorem within_facts (t : Tokenizer) (hb : t.is_out_of_bound = .Within) :
    t.ln < t.lines.length ∧ t.col < (lineAt t t.ln).length := by
  by_cases h1 : t.lines.length ≤ t.ln
  · rw [out_is_out_of_bound t h1] at hb; exact absurd hb (by simp)
  · by_cases h2 : (lineAt t t.ln).length ≠ 0
    · by_cases h3 : (lineAt t t.ln).length ≤ t.col
      · simp [Tokenizer.is_out_of_bound, h1, h2, h3] at hb
      · exact ⟨by omega, by omega⟩
    · simp [Tokenizer.is_out_of_bound, h1, h2] at hb

theorem empty_facts (t : Tokenizer) (hb : t.is_out_of_bound = .Empty) :
    t.ln < t.lines.length ∧ (lineAt t t.ln).length = 0 := by
  by_cases h1 : t.lines.length ≤ t.ln
  · rw [out_is_out_of_bound t h1] at hb; exact absurd hb (by simp)
  · by_cases h2 : (lineAt t t.ln).length ≠ 0
    · by_cases h3 : (lineAt t t.ln).length ≤ t.col <;>
        simp [Tokenizer.is_out_of_bound, h1, h2, h3] at hb
    · exact ⟨by omega, by omega⟩

theorem get_next_char_within (t : Tokenizer) (c : Char)
    (h : t.get_next_char = some c) :
    t.ln < t.lines.length ∧ t.col < (lineAt t t.ln).length := by
  by_cases hb : t.is_out_of_bound = .Within
  · exact within_facts t hb
  · simp [Tokenizer.get_next_char, hb] at h

theorem within_get_next_char (t : Tokenizer) (hb : t.is_out_of_bound = .Within) :
    t.get_next_char = some ((lineAt t t.ln).getD t.col ' ') := by
  simp [Tokenizer.get_next_char, hb]

theorem config_consume1 (t : Tokenizer) : (t.consume 1).config = t.config := by
  rcases consume_one_cases t with ⟨_, e⟩ | ⟨_, _, e⟩ | ⟨_, _, e⟩ <;> rw [e] <;> rfl

/-- The word loop terminates within `meas` steps and never grows the
measure. -/
theorem parse_wordLoop_spec :
    ∀ (fuel : Nat) (t : Tokenizer) (acc : List Char), Inv t → meas t < fuel →
      ∃ res t', parse_wordLoop fuel t acc = some (res, t')
        ∧ Inv t' ∧ meas t' ≤ meas t := by
  intro fuel
  induction fuel with
  | zero => intro t acc _ hm; omega
  | succ f ih =>
    intro t acc hI hm
    cases hg : t.get_next_char with
    | none => exact ⟨acc, t, by simp [parse_wordLoop, hg], hI, le_refl _⟩
    | some c =>
      have hw := get_next_char_within t c hg
      have hI1 := inv_consume1 t hI
      have hlt := meas_consume1_lt t hI hw.1
      by_cases hsp : c = ' '
      · exact ⟨acc, t, by simp [parse_wordLoop, hg, hsp], hI, le_refl _⟩
      · by_cases hs : c ∈ t.config.consider_as_symbols
        · exact ⟨acc, t, by simp [parse_wordLoop, hg, hsp, hs], hI, le_refl _⟩
        · by_cases ho : c ∈ t.config.consider_as_operators
          · exact ⟨acc, t, by simp [parse_wordLoop, hg, hsp, hs, ho], hI, le_refl _⟩
          · obtain ⟨res, t', e, hI2, hle⟩ := ih (t.consume 1) (acc ++ [c]) hI1 (by omega)
            exact ⟨res, t',
              by simp [parse_wordLoop, hg, hsp, hs, ho, e], hI2, by omega⟩

/-- The float loop terminates within `meas` steps and never grows the
measure. -/
theorem parse_floatLoop_spec :
    ∀ (fuel : Nat) (t : Tokenizer) (acc : List Char) (b : Bool),
      Inv t → meas t < fuel →
      ∃ res t', parse_floatLoop fuel t acc b = some (res, t')
        ∧ Inv t' ∧ meas t' ≤ meas t := by
  intro fuel
  induction fuel with
  | zero => intro t acc b _ hm; omega
  | succ f ih =>
    intro t acc b hI hm
    cases hg : t.get_next_char with
    | none => exact ⟨acc, t, by simp [parse_floatLoop, hg], hI, le_refl _⟩
    | some c =>
      have hw := get_next_char_within t c hg
      have hI1 := inv_consume1 t hI
      have hlt := meas_consume1_lt t hI hw.1
      by_cases hd : c.isDigit = true
      · obtain ⟨res, t', e, hI2, hle⟩ := ih (t.consume 1) (acc ++ [c]) b hI1 (by omega)
        exact ⟨res, t', by simp [parse_floatLoop, hg, hd, e], hI2, by omega⟩
      · by_cases hdot : c = '.'
        · cases b with
          | true =>
            exact ⟨acc, t, by simp [parse_floatLoop, hg, hd, hdot], hI, le_refl _⟩
          | false =>
            obtain ⟨res, t', e, hI2, hle⟩ :=
              ih (t.consume 1) (acc ++ ['.']) true hI1 (by omega)
            exact ⟨res, t', by simp [parse_floatLoop, hg, hd, hdot, e], hI2, by omega⟩
        · exact ⟨acc, t, by simp [parse_floatLoop, hg, hd, hdot], hI, le_refl _⟩

/-- The radix loops terminate within `meas` steps and never grow the
measure. -/
theorem parse_radixLoop_spec (alphabet : Char → Bool) :
    ∀ (fuel : Nat) (t : Tokenizer) (acc : List Char), Inv t → meas t < fuel →
      ∃ res t', parse_radixLoop alphabet fuel t acc = some (res, t')
        ∧ Inv t' ∧ meas t' ≤ meas t := by
  intro fuel
  induction fuel with
  | zero => intro t acc _ hm; omega
  | succ f ih =>
    intro t acc hI hm
    cases hg : t.get_next_char with
    | none => exact ⟨acc, t, by simp [parse_radixLoop, hg], hI, le_refl _⟩
    | some c =>
      have hw := get_next_char_within t c hg
      have hI1 := inv_consume1 t hI
      have hlt := meas_consume1_lt t hI hw.1
      by_cases ha : alphabet c = true
      · obtain ⟨res, t', e, hI2, hle⟩ := ih (t.consume 1) (acc ++ [c]) hI1 (by omega)
        exact ⟨res, t', by simp [parse_radixLoop, hg, ha, e], hI2, by omega⟩
      · exact ⟨acc, t, by simp [parse_radixLoop, hg, ha], hI, le_refl _⟩

/-- The string loop terminates within `meas` steps and never grows the
measure. -/
theorem parse_stringLoop_spec (d : Char) :
    ∀ (fuel : Nat) (t : Tokenizer) (acc : List Char) (b : Bool),
      Inv t → meas t < fuel →
      ∃ res t', parse_stringLoop d fuel t acc b = some (res, t')
        ∧ Inv t' ∧ meas t' ≤ meas t := by
  intro fuel
  induction fuel with
  | zero => intro t acc b _ hm; omega
  | succ f ih =>
    intro t acc b hI hm
    cases hg : t.get_next_char with
    | none => exact ⟨acc, t, by simp [parse_stringLoop, hg], hI, le_refl _⟩
    | some c =>
      have hw := get_next_char_within t c hg
      have hI1 := inv_consume1 t hI
      have hlt := meas_consume1_lt t hI hw.1
      by_cases h1 : (c = d ∧ b = false)
      · exact ⟨acc, t.consume 1, by simp [parse_stringLoop, hg, h1], hI1, by omega⟩
      · by_cases h2 : (c = '\\' ∧ b = false)
        · obtain ⟨rfl, rfl⟩ := h2
          have hd1 : ¬ (('\\' : Char) = d) := fun hc => h1 ⟨hc, rfl⟩
          obtain ⟨res, t', e, hI2, hle⟩ := ih (t.consume 1) acc true hI1 (by omega)
          exact ⟨res, t', by simp [parse_stringLoop, hg, hd1, e], hI2, by omega⟩
        · cases b with
          | true =>
            obtain ⟨res, t', e, hI2, hle⟩ :=
              ih (t.consume 1) (acc ++ decodeEscape c) false hI1 (by omega)
            exact ⟨res, t', by simp [parse_stringLoop, hg, e], hI2, by omega⟩
          | false =>
            have h1n : ¬ (c = d) := fun hc => h1 ⟨hc, rfl⟩
            have h2n : ¬ (c = '\\') := fun hc => h2 ⟨hc, rfl⟩
            obtain ⟨res, t', e, hI2, hle⟩ :=
              ih (t.consume 1) (acc ++ [c]) false hI1 (by omega)
            exact ⟨res, t', by simp [parse_stringLoop, hg, h1n, h2n, e], hI2, by omega⟩

/-- The strict char loop terminates within `meas` steps and never grows
the measure. -/
theorem parse_charLoop_spec :
    ∀ (fuel : Nat) (t : Tokenizer) (acc : List Char) (b : Bool),
      Inv t → meas t < fuel →
      ∃ res t', parse_charLoop fuel t acc b = some (res, t')
        ∧ Inv t' ∧ meas t' ≤ meas t ∧ t'.config = t.config := by
  intro fuel
  induction fuel with
  | zero => intro t acc b _ hm; omega
  | succ f ih =>
    intro t acc b hI hm
    cases hg : t.get_next_char with
    | none => exact ⟨acc, t, by simp [parse_charLoop, hg], hI, le_refl _, rfl⟩
    | some c =>
      have hw := get_next_char_within t c hg
      have hI1 := inv_consume1 t hI
      have hlt := meas_consume1_lt t hI hw.1
      have hcf := config_consume1 t
      by_cases h1 : (c = '\'' ∧ b = false)
      · exact ⟨acc, t.consume 1, by simp [parse_charLoop, hg, h1], hI1, by omega, hcf⟩
      · by_cases h2 : (c = '\\' ∧ b = false)
        · obtain ⟨res, t', e, hI2, hle, hc2⟩ := ih (t.consume 1) acc true hI1 (by omega)
          exact ⟨res, t', by simp [parse_charLoop, hg, h1, h2, e], hI2, by omega,
            hc2.trans hcf⟩
        · obtain ⟨res, t', e, hI2, hle, hc2⟩ :=
            ih (t.consume 1) (acc ++ [c]) false hI1 (by omega)
          exact ⟨res, t', by simp [parse_charLoop, hg, h1, h2, e], hI2, by omega,
            hc2.trans hcf⟩

/-- The decimal loop terminates within `meas` steps; when it returns `ok`
the measure has not grown. -/
theorem parse_numberLoop_spec (sl : Nat) :
    ∀ (fuel : Nat) (t : Tokenizer) (num : List Char) (ty : NumberType)
      (pf : Bool) (ic : Nat), Inv t → meas t < fuel →
      ∃ r, parse_numberLoop sl fuel t num ty pf ic = some r
        ∧ ∀ num' ty' t', r = .ok (num', ty', t') → Inv t' ∧ meas t' ≤ meas t := by
  intro fuel
  induction fuel with
  | zero => intro t num ty pf ic _ hm; omega
  | succ f ih =>
    intro t num ty pf ic hI hm
    cases hg : t.get_next_char with
    | none =>
      refine ⟨.ok (num, ty, t), by simp [parse_numberLoop, hg], ?_⟩
      rintro num' ty' t' hr
      simp only [Except.ok.injEq, Prod.mk.injEq] at hr
      obtain ⟨h1, h2, h3⟩ := hr
      subst h3
      exact ⟨hI, le_refl _⟩
    | some c =>
      have hw := get_next_char_within t c hg
      have hI1 := inv_consume1 t hI
      have hlt := meas_consume1_lt t hI hw.1
      by_cases hd : c.isDigit = true
      · obtain ⟨r, e, hok⟩ := ih (t.consume 1) (num ++ [c]) ty pf (ic + 1) hI1 (by omega)
        refine ⟨r, by simp [parse_numberLoop, hg, hd, e], ?_⟩
        rintro num' ty' t' hr
        obtain ⟨hI2, hle⟩ := hok num' ty' t' hr
        exact ⟨hI2, by omega⟩
      · by_cases hdot : c = '.'
        · cases pf with
          | true =>
            refine ⟨.ok (num, ty, t), by simp [parse_numberLoop, hg, hd, hdot], ?_⟩
            rintro num' ty' t' hr
            simp only [Except.ok.injEq, Prod.mk.injEq] at hr
            obtain ⟨h1, h2, h3⟩ := hr
            subst h3
            exact ⟨hI, le_refl _⟩
          | false =>
            obtain ⟨r, e, hok⟩ :=
              ih (t.consume 1) (num ++ ['.']) .Float true (ic + 1) hI1 (by omega)
            refine ⟨r, by simp [parse_numberLoop, hg, hd, hdot, e], ?_⟩
            rintro num' ty' t' hr
            obtain ⟨hI2, hle⟩ := hok num' ty' t' hr
            exact ⟨hI2, by omega⟩
        · cases hsep : t.config.allow_digit_separator with
          | No =>
            refine ⟨.ok (num, ty, t),
              by simp [parse_numberLoop, hg, hd, hdot, hsep], ?_⟩
            rintro num' ty' t' hr
            simp only [Except.ok.injEq, Prod.mk.injEq] at hr
            obtain ⟨h1, h2, h3⟩ := hr
            subst h3
            exact ⟨hI, le_refl _⟩
          | Yes w =>
            by_cases hcw : c = w
            · obtain rfl := hcw
              have hle1 := meas_consume1_le (t.consume 1) hI1
              cases hg1 : (t.consume 1).get_next_char with
              | none =>
                refine ⟨.error (.UnexpectedDigitSeparator ⟨sl, ic⟩),
                  by simp [parse_numberLoop, hg, hd, hdot, hsep, hg1], ?_⟩
                rintro num' ty' t' hr
                exact absurd hr (by simp)
              | some nc =>
                by_cases hnd : nc.isDigit = true
                · have hI2 := inv_consume1 (t.consume 1) hI1
                  obtain ⟨r, e, hok⟩ := ih ((t.consume 1).consume 1) (num ++ [nc])
                    ty pf (ic + 1) hI2 (by omega)
                  refine ⟨r,
                    by simp [parse_numberLoop, hg, hd, hdot, hsep, hg1, hnd, e], ?_⟩
                  rintro num' ty' t' hr
                  obtain ⟨hI3, hle2⟩ := hok num' ty' t' hr
                  exact ⟨hI3, by omega⟩
                · refine ⟨.error (.UnexpectedDigitSeparator ⟨sl, ic⟩),
                    by simp [parse_numberLoop, hg, hd, hdot, hsep, hg1, hnd], ?_⟩
                  rintro num' ty' t' hr
                  exact absurd hr (by simp)
            · refine ⟨.ok (num, ty, t),
                by simp [parse_numberLoop, hg, hd, hdot, hsep, hcw], ?_⟩
              rintro num' ty' t' hr
              simp only [Except.ok.injEq, Prod.mk.injEq] at hr
              obtain ⟨h1, h2, h3⟩ := hr
              subst h3
              exact ⟨hI, le_refl _⟩

/-- A word dispatched from a `Within` state yields a token and strictly
shrinks the measure. -/
theorem parse_word_spec (t : Tokenizer) (fuel : Nat) (c : Char)
    (hI : Inv t) (hm : meas t < fuel) (hg : t.get_next_char = some c)
    (hsp : c ≠ ' ') (hs : c ∉ t.config.consider_as_symbols)
    (ho : c ∉ t.config.consider_as_operators) :
    ∃ tok t', t.parse_word fuel = some (.ok (tok, t'))
      ∧ Inv t' ∧ meas t' < meas t := by
  obtain ⟨f, rfl⟩ : ∃ f, fuel = f + 1 := ⟨fuel - 1, by omega⟩
  have hw := get_next_char_within t c hg
  have hI1 := inv_consume1 t hI
  have hlt := meas_consume1_lt t hI hw.1
  obtain ⟨res, t', e, hI2, hle⟩ := parse_wordLoop_spec f (t.consume 1) [c] hI1 (by omega)
  refine ⟨⟨.Word, res, ⟨t.ln, t.col⟩⟩, t', ?_, hI2, by omega⟩
  simp [Tokenizer.parse_word, parse_wordLoop, hg, hsp, hs, ho, e]

/-- A float dispatched from a `Within` state whose current character is a
dot or a digit yields a token and strictly shrinks the measure. -/
theorem parse_float_spec (t : Tokenizer) (fuel : Nat) (c : Char)
    (hI : Inv t) (hm : meas t < fuel) (hg : t.get_next_char = some c)
    (hc : c = '.' ∨ c.isDigit = true) :
    ∃ tok t', t.parse_float fuel = some (.ok (tok, t'))
      ∧ Inv t' ∧ meas t' < meas t := by
  obtain ⟨f, rfl⟩ : ∃ f, fuel = f + 1 := ⟨fuel - 1, by omega⟩
  have hw := get_next_char_within t c hg
  have hI1 := inv_consume1 t hI
  have hlt := meas_consume1_lt t hI hw.1
  rcases hc with rfl | hdig
  · obtain ⟨res, t', e, hI2, hle⟩ :=
      parse_floatLoop_spec (f + 1) (t.consume 1) ['0', '.'] true hI1 (by omega)
    refine ⟨⟨.Number .Float, res, ⟨t.ln, t.col⟩⟩, t', ?_, hI2, by omega⟩
    simp [Tokenizer.parse_float, hg, e]
  · have hne : ¬ (c = '.') := by rintro rfl; exact absurd hdig (by decide)
    obtain ⟨res, t', e, hI2, hle⟩ :=
      parse_floatLoop_spec f (t.consume 1) [c] false hI1 (by omega)
    refine ⟨⟨.Number .Float, res, ⟨t.ln, t.col⟩⟩, t', ?_, hI2, by omega⟩
    simp [Tokenizer.parse_float, parse_floatLoop, hg, hne, hdig, e]

theorem consume2_spec (t : Tokenizer) (c : Char) (hI : Inv t)
    (hg : t.get_next_char = some c) :
    Inv (t.consume 2) ∧ meas (t.consume 2) < meas t := by
  have hw := get_next_char_within t c hg
  have hI1 := inv_consume1 t hI
  have hlt := meas_consume1_lt t hI hw.1
  have hle := meas_consume1_le (t.consume 1) hI1
  rw [consume_succ]
  exact ⟨inv_consume1 _ hI1, by omega⟩

/-- The hex scanner from a `Within` state yields a token and strictly
shrinks the measure. -/
theorem parse_hex_spec (t : Tokenizer) (fuel : Nat) (c : Char)
    (hI : Inv t) (hm : meas t < fuel) (hg : t.get_next_char = some c) :
    ∃ tok t', t.parse_hex fuel = some (.ok (tok, t'))
      ∧ Inv t' ∧ meas t' < meas t := by
  obtain ⟨hI2, hlt2⟩ := consume2_spec t c hI hg
  obtain ⟨res, t', e, hI3, hle⟩ :=
    parse_radixLoop_spec isAsciiHexDigit fuel (t.consume 2) [] hI2 (by omega)
  exact ⟨⟨.Number .Hex, res, ⟨t.ln, t.col⟩⟩, t',
    by simp [Tokenizer.parse_hex, e], hI3, by omega⟩

/-- The octal scanner from a `Within` state yields a token and strictly
shrinks the measure. -/
theorem parse_octal_spec (t : Tokenizer) (fuel : Nat) (c : Char)
    (hI : Inv t) (hm : meas t < fuel) (hg : t.get_next_char = some c) :
    ∃ tok t', t.parse_octal fuel = some (.ok (tok, t'))
      ∧ Inv t' ∧ meas t' < meas t := by
  obtain ⟨hI2, hlt2⟩ := consume2_spec t c hI hg
  obtain ⟨res, t', e, hI3, hle⟩ :=
    parse_radixLoop_spec (fun c => '0' ≤ c && c ≤ '7') fuel (t.consume 2) [] hI2
      (by omega)
  exact ⟨⟨.Number .Octal, res, ⟨t.ln, t.col⟩⟩, t',
    by simp [Tokenizer.parse_octal, e], hI3, by omega⟩

/-- The binary scanner from a `Within` state yields a token and strictly
shrinks the measure. -/
theorem parse_binary_spec (t : Tokenizer) (fuel : Nat) (c : Char)
    (hI : Inv t) (hm : meas t < fuel) (hg : t.get_next_char = some c) :
    ∃ tok t', t.parse_binary fuel = some (.ok (tok, t'))
      ∧ Inv t' ∧ meas t' < meas t := by
  obtain ⟨hI2, hlt2⟩ := consume2_spec t c hI hg
  obtain ⟨res, t', e, hI3, hle⟩ :=
    parse_radixLoop_spec (fun c => c = '1' || c = '0') fuel (t.consume 2) [] hI2
      (by omega)
  exact ⟨⟨.Number .Binary, res, ⟨t.ln, t.col⟩⟩, t',
    by simp [Tokenizer.parse_binary, e], hI3, by omega⟩

/-- The string scanner from a `Within` state yields a token and strictly
shrinks the measure. -/
theorem parse_string_spec (t : Tokenizer) (fuel : Nat) (delim : Option Char)
    (c : Char) (hI : Inv t) (hm : meas t < fuel) (hg : t.get_next_char = some c) :
    ∃ tok t', t.parse_string fuel delim = some (.ok (tok, t'))
      ∧ Inv t' ∧ meas t' < meas t := by
  have hw := get_next_char_within t c hg
  have hI1 := inv_consume1 t hI
  have hlt := meas_consume1_lt t hI hw.1
  obtain ⟨res, t', e, hI2, hle⟩ :=
    parse_stringLoop_spec (delim.getD '"') fuel (t.consume 1) [] false hI1 (by omega)
  exact ⟨⟨.String, res, ⟨t.ln, t.col⟩⟩, t',
    by simp [Tokenizer.parse_string, e], hI2, by omega⟩

/-- The char scanner from a `Within` state returns (token or error); in
the token case the measure strictly shrinks. -/
theorem parse_char_spec (t : Tokenizer) (fuel : Nat) (c : Char)
    (hI : Inv t) (hm : meas t < fuel) (hg : t.get_next_char = some c) :
    ∃ r, t.parse_char fuel = some r
      ∧ ∀ tok t', r = .ok (tok, t') → Inv t' ∧ meas t' < meas t := by
  by_cases hcfg : t.config.parse_char_as_string = true
  · obtain ⟨tok, t', e, hI2, hlt⟩ := parse_string_spec t fuel (some '\'') c hI hm hg
    refine ⟨.ok (tok, t'), by simp [Tokenizer.parse_char, hcfg, e], ?_⟩
    rintro tok2 t2 hr
    simp only [Except.ok.injEq, Prod.mk.injEq] at hr
    obtain ⟨h1, h2⟩ := hr
    subst h2
    exact ⟨hI2, hlt⟩
  · have hb : t.config.parse_char_as_string = false := by
      revert hcfg; cases t.config.parse_char_as_string <;> simp
    have hw := get_next_char_within t c hg
    have hI1 := inv_consume1 t hI
    have hlt := meas_consume1_lt t hI hw.1
    obtain ⟨res, t', e, hI2, hle, hc2⟩ :=
      parse_charLoop_spec fuel (t.consume 1) [] false hI1 (by omega)
    have hb' : t'.config.parse_char_as_string = false := by
      rw [hc2, config_consume1]; exact hb
    by_cases hlen : 1 < utf8Len res
    · refine ⟨.error (.NotAValidChar ⟨t.ln, t.col⟩), ?_, ?_⟩
      · simp [Tokenizer.parse_char, hb, e, hb', hlen]
      · rintro tok2 t2 hr
        exact absurd hr (by simp)
    · refine ⟨.ok (⟨.Char, res, ⟨t.ln, t.col⟩⟩, t'), ?_, ?_⟩
      · simp [Tokenizer.parse_char, hb, e, hb', hlen]
      · rintro tok2 t2 hr
        simp only [Except.ok.injEq, Prod.mk.injEq] at hr
        obtain ⟨h1, h2⟩ := hr
        subst h2
        exact ⟨hI2, by omega⟩

/-- The decimal scanner from a `Within` state whose current character is
a digit returns (token or error); in the token case the measure strictly
shrinks. -/
theorem parse_number_spec (t : Tokenizer) (fuel : Nat) (c : Char)
    (hI : Inv t) (hm : meas t < fuel) (hg : t.get_next_char = some c)
    (hdig : c.isDigit = true) :
    ∃ r, t.parse_number fuel = some r
      ∧ ∀ tok t', r = .ok (tok, t') → Inv t' ∧ meas t' < meas t := by
  obtain ⟨f, rfl⟩ : ∃ f, fuel = f + 1 := ⟨fuel - 1, by omega⟩
  have hw := get_next_char_within t c hg
  have hI1 := inv_consume1 t hI
  have hlt := meas_consume1_lt t hI hw.1
  obtain ⟨r, e, hok⟩ :=
    parse_numberLoop_spec t.ln f (t.consume 1) [c] .Seq false (t.col + 1) hI1 (by omega)
  cases r with
  | error er =>
    refine ⟨.error er, ?_, ?_⟩
    · simp [Tokenizer.parse_number, parse_numberLoop, hg, hdig, e]
    · rintro tok2 t2 hr
      exact absurd hr (by simp)
  | ok p =>
    obtain ⟨num, ty, t'⟩ := p
    obtain ⟨hI2, hle⟩ := hok num ty t' rfl
    refine ⟨.ok (⟨.Number ty, num, ⟨t.ln, t.col⟩⟩, t'), ?_, ?_⟩
    · simp [Tokenizer.parse_number, parse_numberLoop, hg, hdig, e]
    · rintro tok2 t2 hr
      simp only [Except.ok.injEq, Prod.mk.injEq] at hr
      obtain ⟨h1, h2⟩ := hr
      subst h2
      exact ⟨hI2, by omega⟩

/-- The main scan loop returns a result whenever its fuel exceeds the
measure of the state: each iteration either skips an empty line or runs a
sub-scanner that strictly shrinks the measure. -/
theorem tokenizeLoop_spec :
    ∀ (fuel : Nat) (t : Tokenizer) (acc : List Token), Inv t → meas t < fuel →
      ∃ r, tokenizeLoop fuel t acc = some r := by
  intro fuel
  induction fuel with
  | zero => intro t acc _ hm; omega
  | succ f ih =>
    intro t acc hI hm
    cases hb : t.is_out_of_bound with
    | Out => exact ⟨.ok acc, by simp [tokenizeLoop, hb]⟩
    | Empty =>
      obtain ⟨hln, hlen⟩ := empty_facts t hb
      have hcol : t.col = 0 := by
        rcases hI with h | ⟨_, h⟩
        · exact h
        · omega
      have hmlt := meas_next_line t hln hcol
      obtain ⟨r, e⟩ := ih t.next_line acc (inv_next_line t) (by omega)
      exact ⟨r, by simp [tokenizeLoop, hb, e]⟩
    | Within =>
      obtain ⟨c, hg⟩ : ∃ c, t.get_next_char = some c :=
        ⟨_, within_get_next_char t hb⟩
      have hw := get_next_char_within t c hg
      have hI1 := inv_consume1 t hI
      have hlt := meas_consume1_lt t hI hw.1
      by_cases hsp : c = ' '
      · obtain ⟨r, e⟩ := ih (t.consume 1) acc hI1 (by omega)
        exact ⟨r, by simp [tokenizeLoop, hb, hg, hsp, e]⟩
      · by_cases hdig : (c.isDigit = true ∧ t.config.ignore_numbers = false)
        · obtain ⟨hdc, hig⟩ := hdig
          by_cases h0 : c = '0'
          · cases hpk : t.peek_tok with
            | none =>
              obtain ⟨r, e, hok⟩ := parse_number_spec t (f + 1) c hI (by omega) hg hdc
              cases r with
              | error er =>
                exact ⟨.error er,
                  by simp [tokenizeLoop, hb, hg, hsp, hdc, hig, h0, hpk, e]⟩
              | ok p =>
                obtain ⟨tok, t'⟩ := p
                obtain ⟨hI2, hlt2⟩ := hok tok t' rfl
                obtain ⟨r2, e2⟩ := ih t' (acc ++ [tok]) hI2 (by omega)
                exact ⟨r2,
                  by simp [tokenizeLoop, hb, hg, hsp, hdc, hig, h0, hpk, e, e2]⟩
            | some p =>
              by_cases hx : p = 'x'
              · obtain ⟨tok, t', e, hI2, hlt2⟩ :=
                  parse_hex_spec t (f + 1) c hI (by omega) hg
                obtain ⟨r2, e2⟩ := ih t' (acc ++ [tok]) hI2 (by omega)
                exact ⟨r2,
                  by simp [tokenizeLoop, hb, hg, hsp, hdc, hig, h0, hpk, hx, e, e2]⟩
              · by_cases hoo : p = 'o'
                · obtain ⟨tok, t', e, hI2, hlt2⟩ :=
                    parse_octal_spec t (f + 1) c hI (by omega) hg
                  obtain ⟨r2, e2⟩ := ih t' (acc ++ [tok]) hI2 (by omega)
                  exact ⟨r2, by simp [tokenizeLoop, hb, hg, hsp, hdc, hig, h0, hpk,
                    hx, hoo, e, e2]⟩
                · by_cases hbb : p = 'b'
                  · obtain ⟨tok, t', e, hI2, hlt2⟩ :=
                      parse_binary_spec t (f + 1) c hI (by omega) hg
                    obtain ⟨r2, e2⟩ := ih t' (acc ++ [tok]) hI2 (by omega)
                    exact ⟨r2, by simp [tokenizeLoop, hb, hg, hsp, hdc, hig, h0, hpk,
                      hx, hoo, hbb, e, e2]⟩
                  · by_cases hpd : p = '.'
                    · obtain ⟨tok, t', e, hI2, hlt2⟩ :=
                        parse_float_spec t (f + 1) c hI (by omega) hg (Or.inr hdc)
                      obtain ⟨r2, e2⟩ := ih t' (acc ++ [tok]) hI2 (by omega)
                      exact ⟨r2, by simp [tokenizeLoop, hb, hg, hsp, hdc, hig, h0,
                        hpk, hx, hoo, hbb, hpd, e, e2]⟩
                    · obtain ⟨r, e, hok⟩ :=
                        parse_number_spec t (f + 1) c hI (by omega) hg hdc
                      cases r with
                      | error er =>
                        exact ⟨.error er, by simp [tokenizeLoop, hb, hg, hsp, hdc,
                          hig, h0, hpk, hx, hoo, hbb, hpd, e]⟩
                      | ok q =>
                        obtain ⟨tok, t'⟩ := q
                        obtain ⟨hI2, hlt2⟩ := hok tok t' rfl
                        obtain ⟨r2, e2⟩ := ih t' (acc ++ [tok]) hI2 (by omega)
                        exact ⟨r2, by simp [tokenizeLoop, hb, hg, hsp, hdc, hig, h0,
                          hpk, hx, hoo, hbb, hpd, e, e2]⟩
          · obtain ⟨r, e, hok⟩ := parse_number_spec t (f + 1) c hI (by omega) hg hdc
            cases r with
            | error er =>
              exact ⟨.error er, by simp [tokenizeLoop, hb, hg, hsp, hdc, hig, h0, e]⟩
            | ok p =>
              obtain ⟨tok, t'⟩ := p
              obtain ⟨hI2, hlt2⟩ := hok tok t' rfl
              obtain ⟨r2, e2⟩ := ih t' (acc ++ [tok]) hI2 (by omega)
              exact ⟨r2, by simp [tokenizeLoop, hb, hg, hsp, hdc, hig, h0, e, e2]⟩
        · by_cases hdot : c = '.'
          · cases hpk : t.peek_tok with
            | none =>
              obtain ⟨r, e⟩ := ih (t.consume 1)
                (acc ++ [⟨.Symbol, ['.'], ⟨t.ln, t.col⟩⟩]) hI1 (by omega)
              exact ⟨r, by simp [tokenizeLoop, hb, hg, hsp, hdig, hdot, hpk, e]⟩
            | some p =>
              by_cases hnl : p = '\n'
              · obtain ⟨r, e⟩ := ih (t.consume 1)
                  (acc ++ [⟨.Symbol, ['.'], ⟨t.ln, t.col⟩⟩]) hI1 (by omega)
                exact ⟨r, by simp [tokenizeLoop, hb, hg, hsp, hdig, hdot, hpk, hnl, e]⟩
              · by_cases hpd : (p.isDigit = true ∧ t.config.ignore_numbers = false)
                · obtain ⟨tok, t', e, hI2, hlt2⟩ :=
                    parse_float_spec t (f + 1) c hI (by omega) hg (Or.inl hdot)
                  obtain ⟨r2, e2⟩ := ih t' (acc ++ [tok]) hI2 (by omega)
                  exact ⟨r2,
                    by simp [tokenizeLoop, hb, hg, hsp, hdig, hdot, hpk, hnl, hpd, e, e2]⟩
                · obtain ⟨r, e⟩ := ih (t.consume 1)
                    (acc ++ [⟨.Symbol, ['.'], ⟨t.ln, t.col⟩⟩]) hI1 (by omega)
                  exact ⟨r,
                    by simp [tokenizeLoop, hb, hg, hsp, hdig, hdot, hpk, hnl, hpd, e]⟩
          · by_cases hq : c = '"'
            · obtain ⟨tok, t', e, hI2, hlt2⟩ :=
                parse_string_spec t (f + 1) none c hI (by omega) hg
              obtain ⟨r2, e2⟩ := ih t' (acc ++ [tok]) hI2 (by omega)
              exact ⟨r2, by simp [tokenizeLoop, hb, hg, hsp, hdig, hdot, hq, e, e2]⟩
            · by_cases hsq : c = '\''
              · obtain ⟨r, e, hok⟩ := parse_char_spec t (f + 1) c hI (by omega) hg
                cases r with
                | error er =>
                  exact ⟨.error er,
                    by simp [tokenizeLoop, hb, hg, hsp, hdig, hdot, hq, hsq, e]⟩
                | ok p =>
                  obtain ⟨tok, t'⟩ := p
                  obtain ⟨hI2, hlt2⟩ := hok tok t' rfl
                  obtain ⟨r2, e2⟩ := ih t' (acc ++ [tok]) hI2 (by omega)
                  exact ⟨r2,
                    by simp [tokenizeLoop, hb, hg, hsp, hdig, hdot, hq, hsq, e, e2]⟩
              · by_cases hsym : c ∈ t.config.consider_as_symbols
                · obtain ⟨r, e⟩ := ih (t.consume 1)
                    (acc ++ [⟨.Symbol, [c], ⟨t.ln, t.col⟩⟩]) hI1 (by omega)
                  exact ⟨r,
                    by simp [tokenizeLoop, hb, hg, hsp, hdig, hdot, hq, hsq, hsym, e]⟩
                · by_cases hop : c ∈ t.config.consider_as_operators
                  · obtain ⟨r, e⟩ := ih (t.consume 1)
                      (acc ++ [⟨.Operator, [c], ⟨t.ln, t.col⟩⟩]) hI1 (by omega)
                    exact ⟨r, by simp [tokenizeLoop, hb, hg, hsp, hdig, hdot, hq,
                      hsq, hsym, hop, e]⟩
                  · obtain ⟨tok, t', e, hI2, hlt2⟩ :=
                      parse_word_spec t (f + 1) c hI (by omega) hg hsp hsym hop
                    obtain ⟨r2, e2⟩ := ih t' (acc ++ [tok]) hI2 (by omega)
                    exact ⟨r2, by simp [tokenizeLoop, hb, hg, hsp, hdig, hdot, hq,
                      hsq, hsym, hop, e, e2]⟩

/-- C10: the scan terminates for every input text and every
configuration: the fuel `meas + 1` supplied by `tokenize` always
suffices, because each iteration of the main loop either advances the
line index (empty line) or strictly decreases the remaining-character
measure through `consume`. -/
theorem tokenize_terminates (input : List Char) (cfg : TokenizerConfig) :
    ∃ r, (Tokenizer.new input cfg).tokenize = some r :=
  tokenizeLoop_spec (meas (Tokenizer.new input cfg) + 1) (Tokenizer.new input cfg) []
    (Or.inl rfl) (by omega)

/-- C10 witness: the one-character input `a` terminates. -/
theorem tokenize_terminates_witness :
    ∃ r, (Tokenizer.new ['a'] builderNewConfig).tokenize = some r :=
  tokenize_terminates ['a'] builderNewConfig

end Stp
